import Mathlib

/-!
Verification development for the chess analyzer repository (src/main.py).

The repository's own code (`ChessAnalyzerGUI` in src/main.py) is a GUI state
machine over a chess rules engine and an external position evaluator.  The
rules engine (`chess.Board` of the python-chess dependency) and the evaluator
adapter (the `stockfish` package) are external dependencies not present under
src/; the specification (spec.md sections 3, 4.1, 4.2, 4.3) specifies them as
the core of the system, so they are modelled here from the spec's words:
Position, MoveGenerator (legalMoves), applyMove, and the EvaluationClient.
The GUI state machine (click_square, undo_move, redo_move, hover_square,
draw_eval_bar, update_moves_text) is translated directly from src/main.py.
-/

namespace ChessSpec

/-- Side / piece colour.  In python-chess `chess.WHITE = True`. -/
inductive Color where
  | white
  | black
deriving DecidableEq, Repr

def Color.other : Color → Color
  | .white => .black
  | .black => .white

/-- Modelled from the spec (section 3): piece kinds. -/
inductive PieceKind where
  | pawn
  | knight
  | bishop
  | rook
  | queen
  | king
deriving DecidableEq, Repr

/-- Modelled from the spec (section 3): a piece is a kind with a colour. -/
structure Piece where
  kind : PieceKind
  color : Color
deriving DecidableEq, Repr

/-- Modelled from the spec (section 3): the four castling rights. -/
structure CastlingRights where
  wk : Bool
  wq : Bool
  bk : Bool
  bq : Bool
deriving DecidableEq, Repr

/-- Modelled from the spec (section 3): an immutable-per-ply Position snapshot.
`board` is the 64-entry mapping from square index (file = s % 8,
rank = s / 8) to optional piece. -/
structure Position where
  board : List (Option Piece)
  turn : Color
  castlingRights : CastlingRights
  epSquare : Option Nat
  halfmoveClock : Nat
  fullmoveNumber : Nat
deriving DecidableEq, Repr

/-- Modelled from the spec (section 3): a move is from-square, to-square and
an optional promotion kind.  Equality is structural. -/
structure Move where
  fromSq : Nat
  toSq : Nat
  promotion : Option PieceKind
deriving DecidableEq, Repr

/-- File (column) of a square index, as in the spec: file = value mod 8. -/
def fileOf (s : Nat) : Nat := s % 8

/-- Rank (row) of a square index, as in the spec: rank = value div 8. -/
def rankOf (s : Nat) : Nat := s / 8

/-- Whether integer file/rank coordinates lie on the board. -/
def inB (f r : Int) : Bool := 0 ≤ f && f < 8 && 0 ≤ r && r < 8

/-- Square index from integer file/rank coordinates. -/
def sqOf (f r : Int) : Nat := (r * 8 + f).toNat

/-- Piece (if any) on square `s`. -/
def pieceAt (pos : Position) (s : Nat) : Option Piece := pos.board.getD s none

/-- Whether square `s` is empty. -/
def isEmptySq (pos : Position) (s : Nat) : Bool := (pieceAt pos s).isNone

/-- Whether square `s` holds a piece of colour `c`. -/
def occupiedBy (pos : Position) (c : Color) (s : Nat) : Bool :=
  match pieceAt pos s with
  | some p => decide (p.color = c)
  | none => false

def pawnDir : Color → Int
  | .white => 1
  | .black => -1

/-- The farthest rank from a pawn's start, where promotion is mandatory. -/
def promotionRank : Color → Nat
  | .white => 7
  | .black => 0

def pawnStartRank : Color → Nat
  | .white => 1
  | .black => 6

/-- The four admissible promotion choices (spec section 4.1). -/
def promoKinds : List PieceKind := [.knight, .bishop, .rook, .queen]

/-- Back rank of white pieces for the standard initial position. -/
def backRank (c : Color) : List (Option Piece) :=
  [some ⟨.rook, c⟩, some ⟨.knight, c⟩, some ⟨.bishop, c⟩, some ⟨.queen, c⟩,
   some ⟨.king, c⟩, some ⟨.bishop, c⟩, some ⟨.knight, c⟩, some ⟨.rook, c⟩]

def pawnRank (c : Color) : List (Option Piece) :=
  List.replicate 8 (some ⟨.pawn, c⟩)

def emptyRank : List (Option Piece) := List.replicate 8 none

/-- The standard initial chess position (`chess.Board()` in src/main.py
line 20). -/
def startPos : Position where
  board := backRank .white ++ pawnRank .white ++ emptyRank ++ emptyRank ++
           emptyRank ++ emptyRank ++ pawnRank .black ++ backRank .black
  turn := .white
  castlingRights := ⟨true, true, true, true⟩
  epSquare := none
  halfmoveClock := 0
  fullmoveNumber := 1

/-- Modelled from the spec (section 4.1): moves a pawn generator emits for a
landing square `t`: one move per promotion choice when `t` is on the farthest
rank, else a single non-promoting move. -/
def mkPawnMoves (s t : Nat) (c : Color) : List Move :=
  if rankOf t = promotionRank c then promoKinds.map (fun k => ⟨s, t, some k⟩)
  else [⟨s, t, none⟩]

/-- The square one pawn step ahead of `s` for colour `c`. -/
def pawnAhead (s : Nat) (c : Color) : Nat :=
  sqOf (fileOf s) ((rankOf s : Int) + pawnDir c)

/-- The square two pawn steps ahead of `s` for colour `c`. -/
def pawnAhead2 (s : Nat) (c : Color) : Nat :=
  sqOf (fileOf s) ((rankOf s : Int) + 2 * pawnDir c)

/-- Modelled from the spec (section 4.1): straight pawn advances (single, and
double from the start rank, both squares empty). -/
def pawnPushes (pos : Position) (c : Color) (s : Nat) : List Move :=
  if inB (fileOf s) ((rankOf s : Int) + pawnDir c) && isEmptySq pos (pawnAhead s c) then
    mkPawnMoves s (pawnAhead s c) c ++
      (if rankOf s = pawnStartRank c && isEmptySq pos (pawnAhead2 s c) then
         [⟨s, pawnAhead2 s c, none⟩]
       else [])
  else []

/-- Modelled from the spec (section 4.1): diagonal pawn captures, onto an
enemy-occupied square or onto the en-passant target square. -/
def pawnCaptures (pos : Position) (c : Color) (s : Nat) : List Move :=
  [(-1 : Int), 1].flatMap (fun df =>
    if inB ((fileOf s : Int) + df) ((rankOf s : Int) + pawnDir c) then
      if occupiedBy pos c.other (sqOf ((fileOf s : Int) + df) ((rankOf s : Int) + pawnDir c)) ||
          decide (pos.epSquare = some (sqOf ((fileOf s : Int) + df) ((rankOf s : Int) + pawnDir c))) then
        mkPawnMoves s (sqOf ((fileOf s : Int) + df) ((rankOf s : Int) + pawnDir c)) c
      else []
    else [])

/-- Modelled from the spec (section 4.1): all pseudo-legal pawn moves. -/
def pawnMoves (pos : Position) (c : Color) (s : Nat) : List Move :=
  pawnPushes pos c s ++ pawnCaptures pos c s

def knightOffsets : List (Int × Int) :=
  [(1, 2), (2, 1), (2, -1), (1, -2), (-1, -2), (-2, -1), (-2, 1), (-1, 2)]

def kingOffsets : List (Int × Int) :=
  [(1, 0), (1, 1), (0, 1), (-1, 1), (-1, 0), (-1, -1), (0, -1), (1, -1)]

def rookDirs : List (Int × Int) := [(1, 0), (-1, 0), (0, 1), (0, -1)]

def bishopDirs : List (Int × Int) := [(1, 1), (1, -1), (-1, 1), (-1, -1)]

/-- On-board targets one fixed offset away (knight and king patterns). -/
def stepTargets (s : Nat) (offs : List (Int × Int)) : List Nat :=
  offs.filterMap (fun d =>
    let f' := (fileOf s : Int) + d.1
    let r' := (rankOf s : Int) + d.2
    if inB f' r' then some (sqOf f' r') else none)

/-- Squares reached along one sliding direction: empty squares up to and
including the first occupied square (spec: sliding pieces stop at the first
occupied square). -/
def rayAux (pos : Position) (f r df dr : Int) : Nat → List Nat
  | 0 => []
  | fuel + 1 =>
    let f' := f + df
    let r' := r + dr
    if inB f' r' then
      let t := sqOf f' r'
      match pieceAt pos t with
      | none => t :: rayAux pos f' r' df dr fuel
      | some _ => [t]
    else []

def slideTargets (pos : Position) (s : Nat) (dirs : List (Int × Int)) : List Nat :=
  dirs.flatMap (fun d => rayAux pos (fileOf s) (rankOf s) d.1 d.2 7)

/-- Squares attacked by the piece `p` standing on `s` (pawns attack only
diagonally; sliders up to the first blocker). -/
def attackTargets (pos : Position) (s : Nat) (p : Piece) : List Nat :=
  match p.kind with
  | .pawn => stepTargets s [(-1, pawnDir p.color), (1, pawnDir p.color)]
  | .knight => stepTargets s knightOffsets
  | .king => stepTargets s kingOffsets
  | .bishop => slideTargets pos s bishopDirs
  | .rook => slideTargets pos s rookDirs
  | .queen => slideTargets pos s (rookDirs ++ bishopDirs)

/-- Modelled from the spec (section 4.1): `t` is attacked by colour `c` if some
piece of colour `c` has a pseudo-legal attack landing on it. -/
def attackedBy (pos : Position) (c : Color) (t : Nat) : Bool :=
  (List.range 64).any (fun s =>
    match pieceAt pos s with
    | some p => decide (p.color = c) && decide (t ∈ attackTargets pos s p)
    | none => false)

/-- Modelled from the spec (sections 4.1, 8): castling moves for the king of
colour `c` standing on `s`: the relevant right is held, the squares between
king and rook are unoccupied, and the king's start, transit and destination
squares are not attacked. -/
def castleMoves (pos : Position) (c : Color) (s : Nat) : List Move :=
  let att := fun (t : Nat) => attackedBy pos c.other t
  if c = .white && s = 4 then
    (if pos.castlingRights.wk && isEmptySq pos 5 && isEmptySq pos 6 &&
        !att 4 && !att 5 && !att 6 then [⟨4, 6, none⟩] else []) ++
    (if pos.castlingRights.wq && isEmptySq pos 3 && isEmptySq pos 2 &&
        isEmptySq pos 1 && !att 4 && !att 3 && !att 2 then [⟨4, 2, none⟩] else [])
  else if c = .black && s = 60 then
    (if pos.castlingRights.bk && isEmptySq pos 61 && isEmptySq pos 62 &&
        !att 60 && !att 61 && !att 62 then [⟨60, 62, none⟩] else []) ++
    (if pos.castlingRights.bq && isEmptySq pos 59 && isEmptySq pos 58 &&
        isEmptySq pos 57 && !att 60 && !att 59 && !att 58 then [⟨60, 58, none⟩] else [])
  else []

/-- Modelled from the spec (section 4.1): pseudo-legal moves of the piece `p`
standing on square `s`. -/
def pieceMoves (pos : Position) (s : Nat) (p : Piece) : List Move :=
  match p.kind with
  | .pawn => pawnMoves pos p.color s
  | _ =>
    ((attackTargets pos s p).filter (fun t => !occupiedBy pos p.color t)).map
      (fun t => Move.mk s t none) ++
    (if p.kind = .king then castleMoves pos p.color s else [])

/-- Pseudo-legal moves generated from square `s`: those of the piece standing
there when it belongs to the side to move. -/
def squareMoves (pos : Position) (s : Nat) : List Move :=
  match pieceAt pos s with
  | some p => if p.color = pos.turn then pieceMoves pos s p else []
  | none => []

/-- Modelled from the spec (section 4.1): all pseudo-legal moves of the side
to move. -/
def pseudoLegalMoves (pos : Position) : List Move :=
  (List.range 64).flatMap (squareMoves pos)

/-- Modelled from the spec (section 4.2): derive the next Position from a
move.  Toggles the side to move; updates castling rights when a king moves or
a rook square is touched; sets/clears the en-passant target; relocates the
rook on castling; removes the passed pawn on en-passant capture; replaces the
pawn by the chosen piece on promotion; maintains the two counters.  Total: on
a square with no piece it only toggles the turn (never reached through the
legality check). -/
def applyMove (pos : Position) (m : Move) : Position :=
  match pieceAt pos m.fromSq with
  | none => { pos with turn := pos.turn.other, epSquare := none }
  | some p =>
    let c := p.color
    let captured := pieceAt pos m.toSq
    let epCap : Bool := decide (p.kind = .pawn) &&
      decide (pos.epSquare = some m.toSq) &&
      decide (fileOf m.fromSq ≠ fileOf m.toSq)
    let epCapSq := fileOf m.toSq + 8 * rankOf m.fromSq
    let b1 := pos.board.set m.fromSq none
    let b2 := if epCap then b1.set epCapSq none else b1
    let placed : Piece :=
      match m.promotion with
      | some k => ⟨k, c⟩
      | none => p
    let b3 := b2.set m.toSq (some placed)
    let kside : Bool := decide (p.kind = .king) &&
      decide ((m.toSq : Int) - (m.fromSq : Int) = 2)
    let qside : Bool := decide (p.kind = .king) &&
      decide ((m.fromSq : Int) - (m.toSq : Int) = 2)
    let b4 :=
      if kside then (b3.set (m.fromSq + 3) none).set (m.fromSq + 1) (some ⟨.rook, c⟩)
      else if qside then (b3.set (m.fromSq - 4) none).set (m.fromSq - 1) (some ⟨.rook, c⟩)
      else b3
    let kingMoved : Color → Bool := fun col =>
      decide (p.kind = .king) && decide (c = col)
    let touched : Nat → Bool := fun sq =>
      decide (m.fromSq = sq) || decide (m.toSq = sq)
    let cr : CastlingRights :=
      { wk := pos.castlingRights.wk && !touched 7 && !kingMoved .white
        wq := pos.castlingRights.wq && !touched 0 && !kingMoved .white
        bk := pos.castlingRights.bk && !touched 63 && !kingMoved .black
        bq := pos.castlingRights.bq && !touched 56 && !kingMoved .black }
    let ep' : Option Nat :=
      if decide (p.kind = .pawn) && decide ((m.toSq : Int) - (m.fromSq : Int) = 16) then
        some (m.fromSq + 8)
      else if decide (p.kind = .pawn) && decide ((m.fromSq : Int) - (m.toSq : Int) = 16) then
        some (m.fromSq - 8)
      else none
    { board := b4
      turn := pos.turn.other
      castlingRights := cr
      epSquare := ep'
      halfmoveClock :=
        if decide (p.kind = .pawn) || captured.isSome then 0
        else pos.halfmoveClock + 1
      fullmoveNumber :=
        if pos.turn = .black then pos.fullmoveNumber + 1 else pos.fullmoveNumber }

/-- Square of the king of colour `c`, if present. -/
def kingSquare (pos : Position) (c : Color) : Option Nat :=
  (List.range 64).find? (fun s => decide (pieceAt pos s = some ⟨.king, c⟩))

/-- Modelled from the spec (section 4.1): the sole legality filter beyond
pseudo-legality — simulate the move and reject it when the moving side's own
king is left attacked. -/
def kingSafeAfter (pos : Position) (m : Move) : Bool :=
  let pos' := applyMove pos m
  match kingSquare pos' pos.turn with
  | some k => !attackedBy pos' pos.turn.other k
  | none => true

/-- Modelled from the spec (section 4.1): `legalMoves(position)`, the
pseudo-legal moves that keep the mover's own king safe.  This models the
`self.board.legal_moves` iterator used in src/main.py lines 171 and 174. -/
def legalMoves (pos : Position) : List Move :=
  (pseudoLegalMoves pos).filter (fun m => kingSafeAfter pos m)

/-! ## Game history (python-chess `Board` stacks, spec section 4.2 GameState)

`chess.Board` keeps, next to the current position fields, `move_stack` (the
committed moves) and an internal stack of saved per-ply board states used by
`pop()`; the spec (section 4.2) requires exactly this incremental
apply/undo with replay-from-start as the correctness oracle.  Stacks are
represented head-first: the head of `moveStack` is the most recently pushed
move (`move_stack[-1]` in Python); chronological order is `moveStack.reverse`.
-/

structure ChessBoard where
  pos : Position
  moveStack : List Move
  stateStack : List Position
deriving DecidableEq, Repr

/-- `board.push(move)` (python-chess): save the current position, append the
move to `move_stack`, and apply it incrementally. -/
def ChessBoard.push (b : ChessBoard) (m : Move) : ChessBoard :=
  { pos := applyMove b.pos m
    moveStack := m :: b.moveStack
    stateStack := b.pos :: b.stateStack }

/-- `board.pop()` (python-chess): drop the last move and restore the saved
previous position.  Callers in src/main.py always guard on a non-empty
`move_stack`; on empty stacks this total model returns the board unchanged. -/
def ChessBoard.popB (b : ChessBoard) : ChessBoard :=
  match b.moveStack, b.stateStack with
  | _ :: ms, p :: ss => { pos := p, moveStack := ms, stateStack := ss }
  | _, _ => b

/-- The GUI state of `ChessAnalyzerGUI` (src/main.py lines 20-25): the board,
the selected square, the last move, the highlighted legal-move destination
squares, the hovered square, and the redo stack.  `redo_stack` is head-first:
`append`/`pop()` act on the head. -/
structure GUIState where
  board : ChessBoard
  selected_square : Option Nat
  last_move : Option Move
  legal_moves : List Nat
  hovered_square : Option Nat
  redo_stack : List Move
deriving DecidableEq, Repr

/-- `ChessAnalyzerGUI.__init__` (src/main.py lines 20-25): fresh standard
board, nothing selected, empty history and redo stack. -/
def initGUI : GUIState where
  board := { pos := startPos, moveStack := [], stateStack := [] }
  selected_square := none
  last_move := none
  legal_moves := []
  hovered_square := none
  redo_stack := []

/-- The commit branch of `click_square` (src/main.py lines 175-181): push the
move, remember it as the last move, clear the redo stack, and reset the
selection and highlights. -/
def commitMove (g : GUIState) (m : Move) : GUIState :=
  { g with
    board := g.board.push m
    last_move := some m
    redo_stack := []
    selected_square := none
    legal_moves := [] }

/-- `click_square` (src/main.py lines 161-182) at the level of the clicked
square index.  First click: select the square when it holds a piece of the
side to move and highlight the destinations of the legal moves from it.
Second click: commit the move (promotion omitted, as in line 173) when it is
legal, else only reset the selection. -/
def clickSquare (g : GUIState) (sq : Nat) : GUIState :=
  match g.selected_square with
  | none =>
    match pieceAt g.board.pos sq with
    | some p =>
      if p.color = g.board.pos.turn then
        { g with
          selected_square := some sq
          legal_moves := ((legalMoves g.board.pos).filter
              (fun m => decide (m.fromSq = sq))).map (fun m => m.toSq) }
      else g
    | none => g
  | some sel =>
    if (⟨sel, sq, none⟩ : Move) ∈ legalMoves g.board.pos then
      commitMove g ⟨sel, sq, none⟩
    else { g with selected_square := none, legal_moves := [] }

/-- `undo_move` (src/main.py lines 192-200): when the history is non-empty,
pop the board, set `last_move` to the new top of the history, append the
popped move to the redo stack and clear the highlights; otherwise a no-op. -/
def undoMove (g : GUIState) : GUIState :=
  match g.board.moveStack with
  | [] => g
  | m :: _ =>
    { g with
      board := g.board.popB
      last_move := g.board.popB.moveStack.head?
      redo_stack := m :: g.redo_stack
      legal_moves := [] }

/-- `redo_move` (src/main.py lines 202-209): when the redo stack is
non-empty, pop its top move, push it back onto the board and remember it as
the last move; otherwise a no-op. -/
def redoMove (g : GUIState) : GUIState :=
  match g.redo_stack with
  | [] => g
  | m :: rs =>
    { g with
      board := g.board.push m
      last_move := some m
      redo_stack := rs }

/-- `hover_square` (src/main.py lines 184-190): record the hovered square. -/
def hoverSquare (g : GUIState) (sq : Nat) : GUIState :=
  { g with hovered_square := some sq }

/-- One user interaction: a board click (squares 0-63), the Undo button, the
Redo button, or a mouse motion. -/
inductive Step : GUIState → GUIState → Prop where
  | click (g : GUIState) (sq : Nat) (h : sq < 64) : Step g (clickSquare g sq)
  | undo (g : GUIState) : Step g (undoMove g)
  | redo (g : GUIState) : Step g (redoMove g)
  | hover (g : GUIState) (sq : Nat) (h : sq < 64) : Step g (hoverSquare g sq)

/-- States reachable from the freshly initialized GUI. -/
def Reachable (g : GUIState) : Prop := Relation.ReflTransGen Step initGUI g

/-- Replay of a head-first move stack from the initial position via
`applyMove`, oldest move first (the spec's replay-from-start oracle). -/
def replay (ms : List Move) : Position :=
  ms.foldr (fun m p => applyMove p m) startPos

/-- The saved-state stack mirrors the move stack: each entry is the replay of
the moves below it, so `pop` restores exactly the replay of the shortened
history. -/
inductive GoodStacks : List Move → List Position → Prop where
  | nil : GoodStacks [] []
  | cons (m : Move) (ms : List Move) (ss : List Position) (h : GoodStacks ms ss) :
      GoodStacks (m :: ms) (replay ms :: ss)

/-- State invariant of the GUI: the stacks are consistent, the position is the
replay of the history, `last_move` tracks the top of the history, and with no
selection there are no highlighted squares. -/
def Inv (g : GUIState) : Prop :=
  GoodStacks g.board.moveStack g.board.stateStack ∧
  g.board.pos = replay g.board.moveStack ∧
  g.last_move = g.board.moveStack.head? ∧
  (g.selected_square = none → g.legal_moves = [])

theorem inv_init : Inv initGUI :=
  ⟨GoodStacks.nil, rfl, rfl, fun _ => rfl⟩

theorem inv_commit (g : GUIState) (m : Move) (h : Inv g) : Inv (commitMove g m) := by
  obtain ⟨hgs, hpos, hlast, hsel⟩ := h
  refine ⟨?_, ?_, rfl, fun _ => rfl⟩
  · show GoodStacks (m :: g.board.moveStack) (g.board.pos :: g.board.stateStack)
    rw [hpos]
    exact GoodStacks.cons m _ _ hgs
  · show applyMove g.board.pos m = replay (m :: g.board.moveStack)
    rw [hpos]; rfl

theorem inv_click (g : GUIState) (sq : Nat) (h : Inv g) : Inv (clickSquare g sq) := by
  obtain ⟨hgs, hpos, hlast, hsel⟩ := h
  unfold clickSquare
  split
  · split
    · split
      · exact ⟨hgs, hpos, hlast, by intro hc; exact absurd hc (by simp)⟩
      · exact ⟨hgs, hpos, hlast, hsel⟩
    · exact ⟨hgs, hpos, hlast, hsel⟩
  · split
    · exact inv_commit _ _ ⟨hgs, hpos, hlast, hsel⟩
    · exact ⟨hgs, hpos, hlast, fun _ => rfl⟩

theorem goodStacks_cons_inv (m : Move) (ms : List Move) (ss : List Position)
    (h : GoodStacks (m :: ms) ss) :
    ∃ ss', ss = replay ms :: ss' ∧ GoodStacks ms ss' := by
  cases h with
  | cons _ _ ss' h' => exact ⟨ss', rfl, h'⟩

theorem inv_undo (g : GUIState) (h : Inv g) : Inv (undoMove g) := by
  unfold undoMove
  split
  · exact h
  · rename_i m ms heq
    obtain ⟨hgs, hpos, hlast, hsel⟩ := h
    rw [heq] at hgs
    obtain ⟨ss', hss, hgs'⟩ := goodStacks_cons_inv m ms _ hgs
    unfold ChessBoard.popB
    rw [heq, hss]
    exact ⟨hgs', rfl, rfl, fun _ => rfl⟩

theorem inv_redo (g : GUIState) (h : Inv g) : Inv (redoMove g) := by
  unfold redoMove
  split
  · exact h
  · rename_i m rs' heq
    obtain ⟨hgs, hpos, hlast, hsel⟩ := h
    refine ⟨?_, ?_, rfl, hsel⟩
    · show GoodStacks (m :: g.board.moveStack) (g.board.pos :: g.board.stateStack)
      rw [hpos]
      exact GoodStacks.cons m _ _ hgs
    · show applyMove g.board.pos m = replay (m :: g.board.moveStack)
      rw [hpos]; rfl

theorem inv_hover (g : GUIState) (sq : Nat) (h : Inv g) : Inv (hoverSquare g sq) := by
  obtain ⟨hgs, hpos, hlast, hsel⟩ := h
  exact ⟨hgs, hpos, hlast, hsel⟩

/-- Every reachable GUI state satisfies the invariant. -/
theorem reachable_inv (g : GUIState) (h : Reachable g) : Inv g := by
  induction h with
  | refl => exact inv_init
  | tail _ hstep ih =>
    cases hstep with
    | click sq hsq => exact inv_click _ sq ih
    | undo => exact inv_undo _ ih
    | redo => exact inv_redo _ ih
    | hover sq hsq => exact inv_hover _ sq ih

/-! ## Evaluation client (spec section 4.3) and evaluation display

The `stockfish` package used in src/main.py is an external dependency not
under src/.  Its `get_evaluation` reply is a dictionary with a `type` tag
("cp" or "mate") and a `value`. -/

/-- Modelled from the spec (section 4.3): the typed score. -/
inductive Score where
  | centipawns (v : Int)
  | mateIn (v : Int)
  | unavailable
deriving DecidableEq, Repr

/-- A raw evaluator reply: the tag and value of the reply dictionary. -/
structure RawReply where
  type : String
  value : Int
deriving DecidableEq, Repr

/-- Modelled from the spec (section 4.3): `evaluate` parses the evaluator's
reply into a Score; an unreachable process or a timeout (`none`) and a
malformed reply (a tag other than "cp" or "mate") both give `Unavailable`,
never a crash. -/
def evaluateClient (reply : Option RawReply) : Score :=
  match reply with
  | none => Score.unavailable
  | some r =>
    if r.type = "cp" then Score.centipawns r.value
    else if r.type = "mate" then Score.mateIn r.value
    else Score.unavailable

/-- `draw_eval_bar` (src/main.py lines 146-159): height of the white (green)
portion of the 512-pixel evaluation bar.  For a centipawn score the source
computes `int((score + 1000) / 2000 * 512)` on the value clamped to
[-1000, 1000]; over that range the Python float expression always equals the
exact integer `(score + 1000) * 512 / 2000` rounded down (the quotient is
exact whenever 125 divides score + 1000, and otherwise sits at least 1/125
away from an integer while the double-rounding error is below 2^-43), so the
exact form is used here. -/
def whiteHeight : Score → Nat
  | .centipawns v => ((max (min v 1000) (-1000) + 1000) * 512 / 2000).toNat
  | .mateIn v => if v > 0 then 512 else 0
  | .unavailable => 512 / 2

/-- The centipawn or mate value appended to the move-list pane by
`update_moves_text` (src/main.py lines 138-141): the raw, unclamped value
(rendered as `value/100` for centipawns — exact for integer centipawns), or
nothing when the reply is neither "cp" nor "mate". -/
def movesTextEval : Score → Option Int
  | .centipawns v => some v
  | .mateIn v => some v
  | .unavailable => none

/-! ## Structural properties of the move generator -/

theorem rankOf_sqOf (f r : Int) (hf0 : 0 ≤ f) (hf : f < 8) (hr0 : 0 ≤ r) :
    rankOf (sqOf f r) = r.toNat := by
  unfold rankOf sqOf
  omega

theorem fileOf_lt (s : Nat) : (fileOf s : Int) < 8 := by
  unfold fileOf
  omega

theorem mem_mkPawnMoves (s t : Nat) (c : Color) (m : Move)
    (h : m ∈ mkPawnMoves s t c) :
    m.fromSq = s ∧ m.toSq = t ∧ (m.promotion = none → rankOf t ≠ promotionRank c) := by
  unfold mkPawnMoves at h
  split at h
  · obtain ⟨k, _, rfl⟩ := List.mem_map.1 h
    refine ⟨rfl, rfl, fun hn => ?_⟩
    cases hn
  · rename_i hneg
    rw [List.mem_singleton] at h
    subst h
    exact ⟨rfl, rfl, fun _ => hneg⟩

theorem mem_pawnPushes (pos : Position) (c : Color) (s : Nat) (m : Move)
    (h : m ∈ pawnPushes pos c s) :
    m.fromSq = s ∧ (m.promotion = none → rankOf m.toSq ≠ promotionRank c) := by
  unfold pawnPushes at h
  split at h
  · rcases List.mem_append.1 h with h1 | h2
    · obtain ⟨hf, ht, hp⟩ := mem_mkPawnMoves _ _ _ _ h1
      exact ⟨hf, by rw [ht]; exact hp⟩
    · split at h2
      · rename_i hcond
        rw [List.mem_singleton] at h2
        subst h2
        refine ⟨rfl, fun _ => ?_⟩
        have hstart : rankOf s = pawnStartRank c :=
          of_decide_eq_true (Bool.and_eq_true_iff.mp hcond).1
        show rankOf (pawnAhead2 s c) ≠ promotionRank c
        unfold pawnAhead2
        rw [hstart]
        cases c with
        | white =>
          simp only [pawnStartRank, pawnDir, promotionRank]
          rw [rankOf_sqOf _ _ (Int.natCast_nonneg _) (fileOf_lt s) (by decide)]
          decide
        | black =>
          simp only [pawnStartRank, pawnDir, promotionRank]
          rw [rankOf_sqOf _ _ (Int.natCast_nonneg _) (fileOf_lt s) (by decide)]
          decide
      · cases h2
  · cases h

theorem mem_pawnCaptures (pos : Position) (c : Color) (s : Nat) (m : Move)
    (h : m ∈ pawnCaptures pos c s) :
    m.fromSq = s ∧ (m.promotion = none → rankOf m.toSq ≠ promotionRank c) := by
  unfold pawnCaptures at h
  obtain ⟨df, _, hm⟩ := List.mem_flatMap.1 h
  split at hm
  · split at hm
    · obtain ⟨hf, ht, hp⟩ := mem_mkPawnMoves _ _ _ _ hm
      exact ⟨hf, by rw [ht]; exact hp⟩
    · cases hm
  · cases hm

theorem mem_pawnMoves (pos : Position) (c : Color) (s : Nat) (m : Move)
    (h : m ∈ pawnMoves pos c s) :
    m.fromSq = s ∧ (m.promotion = none → rankOf m.toSq ≠ promotionRank c) := by
  rcases List.mem_append.1 h with h1 | h2
  · exact mem_pawnPushes pos c s m h1
  · exact mem_pawnCaptures pos c s m h2

theorem mem_castleMoves (pos : Position) (c : Color) (s : Nat) (m : Move)
    (h : m ∈ castleMoves pos c s) : m.fromSq = s := by
  unfold castleMoves at h
  split at h
  · rename_i hcond
    have hs : s = 4 := of_decide_eq_true (Bool.and_eq_true_iff.mp hcond).2
    subst hs
    rcases List.mem_append.1 h with h1 | h1 <;> split at h1 <;>
      first
        | (rw [List.mem_singleton] at h1; subst h1; rfl)
        | cases h1
  · split at h
    · rename_i hcond
      have hs : s = 60 := of_decide_eq_true (Bool.and_eq_true_iff.mp hcond).2
      subst hs
      rcases List.mem_append.1 h with h1 | h1 <;> split at h1 <;>
        first
          | (rw [List.mem_singleton] at h1; subst h1; rfl)
          | cases h1
    · cases h

theorem mem_pieceMoves_fromSq (pos : Position) (s : Nat) (p : Piece) (m : Move)
    (h : m ∈ pieceMoves pos s p) : m.fromSq = s := by
  unfold pieceMoves at h
  split at h
  · exact (mem_pawnMoves pos p.color s m h).1
  · rcases List.mem_append.1 h with h1 | h2
    · obtain ⟨t, _, rfl⟩ := List.mem_map.1 h1
      rfl
    · split at h2
      · exact mem_castleMoves pos p.color s m h2
      · cases h2

theorem mem_pieceMoves_pawn_promo (pos : Position) (s : Nat) (col : Color) (m : Move)
    (h : m ∈ pieceMoves pos s ⟨.pawn, col⟩) (hn : m.promotion = none) :
    rankOf m.toSq ≠ promotionRank col := by
  have h' : m ∈ pawnMoves pos col s := h
  exact (mem_pawnMoves pos col s m h').2 hn

theorem mem_squareMoves (pos : Position) (s : Nat) (m : Move)
    (h : m ∈ squareMoves pos s) :
    ∃ p, pieceAt pos s = some p ∧ p.color = pos.turn ∧ m ∈ pieceMoves pos s p := by
  unfold squareMoves at h
  split at h
  · rename_i p heq
    split at h
    · rename_i hcol
      exact ⟨p, heq, hcol, h⟩
    · cases h
  · cases h

/-- Spec (sections 4.1, 6): a pawn move landing on the farthest rank is only
legal when its promotion field is set — `legalMoves` never contains a
promotion-requiring move with the promotion omitted. -/
theorem legal_promotion (pos : Position) (m : Move)
    (h : m ∈ legalMoves pos)
    (hp : pieceAt pos m.fromSq = some ⟨.pawn, pos.turn⟩)
    (hrank : rankOf m.toSq = promotionRank pos.turn) :
    m.promotion ≠ none := by
  intro hnone
  have h' : m ∈ pseudoLegalMoves pos := (List.mem_filter.1 h).1
  unfold pseudoLegalMoves at h'
  obtain ⟨s, _, hm⟩ := List.mem_flatMap.1 h'
  obtain ⟨p, hps, hcol, hm'⟩ := mem_squareMoves pos s m hm
  have hfrom : m.fromSq = s := mem_pieceMoves_fromSq pos s p m hm'
  rw [← hfrom] at hps
  have hpe : p = ⟨.pawn, pos.turn⟩ := (Option.some.inj (hp.symm.trans hps)).symm
  subst hpe
  exact mem_pieceMoves_pawn_promo pos s pos.turn m hm' hnone hrank

/-! ## Branch characterizations of `click_square` -/

/-- Second click on a square that does not complete a legal move: only the
selection and the highlights are reset (src/main.py lines 172-182, the `if`
on line 174 not taken). -/
theorem clickSquare_illegal (g : GUIState) (sel sq : Nat)
    (h : g.selected_square = some sel)
    (hnot : (⟨sel, sq, none⟩ : Move) ∉ legalMoves g.board.pos) :
    clickSquare g sq = { g with selected_square := none, legal_moves := [] } := by
  unfold clickSquare
  split
  · rename_i heq
    exact absurd (heq.symm.trans h) (by simp)
  · rename_i sel' heq
    have hsel' : sel' = sel := Option.some.inj (heq.symm.trans h)
    subst hsel'
    rw [if_neg hnot]

/-- Second click completing a legal move: the commit branch runs
(src/main.py lines 174-181). -/
theorem clickSquare_commit (g : GUIState) (sel sq : Nat)
    (h : g.selected_square = some sel)
    (hm : (⟨sel, sq, none⟩ : Move) ∈ legalMoves g.board.pos) :
    clickSquare g sq = commitMove g ⟨sel, sq, none⟩ := by
  unfold clickSquare
  split
  · rename_i heq
    exact absurd (heq.symm.trans h) (by simp)
  · rename_i sel' heq
    have hsel' : sel' = sel := Option.some.inj (heq.symm.trans h)
    subst hsel'
    rw [if_pos hm]

/-- First click on a square holding a piece of the side to move: the square
is selected and the legal destinations from it are highlighted
(src/main.py lines 168-171). -/
theorem clickSquare_select (g : GUIState) (sq : Nat) (p : Piece)
    (hsel : g.selected_square = none)
    (hp : pieceAt g.board.pos sq = some p)
    (hc : p.color = g.board.pos.turn) :
    clickSquare g sq =
      { g with
        selected_square := some sq
        legal_moves := ((legalMoves g.board.pos).filter
            (fun m => decide (m.fromSq = sq))).map (fun m => m.toSq) } := by
  unfold clickSquare
  split
  · split
    · rename_i p' heq'
      have hp' : p' = p := Option.some.inj (heq'.symm.trans hp)
      subst hp'
      rw [if_pos hc]
    · rename_i heq'
      exact absurd (heq'.symm.trans hp) (by simp)
  · rename_i sel' heq
    exact absurd (heq.symm.trans hsel) (by simp)

/-- First click on an empty square or on an opponent piece: a complete
no-op (src/main.py lines 168-169, condition not met). -/
theorem clickSquare_skip (g : GUIState) (sq : Nat)
    (hsel : g.selected_square = none)
    (h : ∀ p : Piece, pieceAt g.board.pos sq = some p → p.color ≠ g.board.pos.turn) :
    clickSquare g sq = g := by
  unfold clickSquare
  split
  · split
    · rename_i p heq
      rw [if_neg (h p heq)]
    · rfl
  · rename_i sel' heq
    exact absurd (heq.symm.trans hsel) (by simp)

/-! ## Concrete states used by the witnesses -/

/-- The state after clicking e2 (square 12) then e4 (square 28) from the
initial state: the move e2e4 has been committed. -/
def exTwoClicks : GUIState := clickSquare (clickSquare initGUI 12) 28

/-- A position with an empty board (used to witness universally quantified
statements cheaply). -/
def emptyPos : Position where
  board := List.replicate 64 none
  turn := .white
  castlingRights := ⟨false, false, false, false⟩
  epSquare := none
  halfmoveClock := 0
  fullmoveNumber := 1

/-- A GUI state over the empty board with square a1 selected. -/
def gSel0 : GUIState where
  board := { pos := emptyPos, moveStack := [], stateStack := [] }
  selected_square := some 0
  last_move := none
  legal_moves := []
  hovered_square := none
  redo_stack := []

/-- A sparse position with a white pawn on a7 about to promote, white king
on e1, black king on e8, white to move. -/
def promoPos : Position where
  board := ((List.replicate 64 (none : Option Piece)).set 48
      (some ⟨.pawn, .white⟩)).set 4 (some ⟨.king, .white⟩) |>.set 60
      (some ⟨.king, .black⟩)
  turn := .white
  castlingRights := ⟨false, false, false, false⟩
  epSquare := none
  halfmoveClock := 0
  fullmoveNumber := 1

/-- A GUI state over `promoPos` with the a7 pawn selected. -/
def gPromo : GUIState where
  board := { pos := promoPos, moveStack := [], stateStack := [] }
  selected_square := some 48
  last_move := none
  legal_moves := []
  hovered_square := none
  redo_stack := []

/-- Shape of `undo_move` on a state with consistent stacks and a non-empty
history: the saved previous position (the replay of the shortened history) is
restored, the popped move goes to the redo stack, highlights are cleared. -/
theorem undoMove_eq (g : GUIState) (m : Move) (ms : List Move) (ss' : List Position)
    (hms : g.board.moveStack = m :: ms) (hss : g.board.stateStack = replay ms :: ss') :
    undoMove g =
      { g with
        board := { pos := replay ms, moveStack := ms, stateStack := ss' }
        last_move := ms.head?
        redo_stack := m :: g.redo_stack
        legal_moves := [] } := by
  unfold undoMove ChessBoard.popB
  rw [hms, hss]

/-! ## The claims -/

/-- C1: for every GUI state reachable from the initial position through any
sequence of clicks (which commit legal moves), undo, redo and hover,
replaying the current move history in chronological order from the initial
position via `applyMove` reproduces exactly the current board position. -/
theorem claim_C1_replay_invariant (g : GUIState) (h : Reachable g) :
    g.board.pos = g.board.moveStack.reverse.foldl (fun p m => applyMove p m) startPos := by
  rw [(reachable_inv g h).2.1, List.foldl_reverse]
  rfl

/-- Witness for C1 at the state reached by committing e2e4 with two clicks. -/
theorem claim_C1_replay_invariant_witness :
    Reachable exTwoClicks ∧
    exTwoClicks.board.pos =
      exTwoClicks.board.moveStack.reverse.foldl (fun p m => applyMove p m) startPos := by
  have h1 : Reachable (clickSquare initGUI 12) :=
    Relation.ReflTransGen.single (Step.click initGUI 12 (by decide))
  have hr : Reachable exTwoClicks :=
    Relation.ReflTransGen.tail h1 (Step.click (clickSquare initGUI 12) 28 (by decide))
  exact ⟨hr, claim_C1_replay_invariant exTwoClicks hr⟩

/-- C2: committing a legal move and undoing it restores the pre-move
position (hence also its legal-move set) exactly, and redoing then restores
the post-move position exactly; moreover from any reachable state with a
non-empty history, undo followed by redo restores the current position. -/
theorem claim_C2_undo_redo_inverses :
    (∀ (g : GUIState) (m : Move), Reachable g → m ∈ legalMoves g.board.pos →
      (undoMove (commitMove g m)).board.pos = g.board.pos ∧
      legalMoves (undoMove (commitMove g m)).board.pos = legalMoves g.board.pos ∧
      (redoMove (undoMove (commitMove g m))).board.pos = (commitMove g m).board.pos) ∧
    (∀ g : GUIState, Reachable g → g.board.moveStack ≠ [] →
      (redoMove (undoMove g)).board.pos = g.board.pos) := by
  constructor
  · intro g m _ _
    exact ⟨rfl, rfl, rfl⟩
  · intro g hr hne
    obtain ⟨hgs, hpos, _, _⟩ := reachable_inv g hr
    cases hms : g.board.moveStack with
    | nil => exact absurd hms hne
    | cons m ms =>
      rw [hms] at hgs
      obtain ⟨ss', hss, _⟩ := goodStacks_cons_inv m ms _ hgs
      rw [undoMove_eq g m ms ss' hms hss]
      show applyMove (replay ms) m = g.board.pos
      rw [hpos, hms]
      rfl

/-- Witness for C2: e2e4 at the initial state, and undo-redo at the state
after e2e4. -/
theorem claim_C2_undo_redo_inverses_witness :
    Reachable initGUI ∧ (⟨12, 28, none⟩ : Move) ∈ legalMoves initGUI.board.pos ∧
    (undoMove (commitMove initGUI ⟨12, 28, none⟩)).board.pos = initGUI.board.pos ∧
    Reachable exTwoClicks ∧ exTwoClicks.board.moveStack ≠ [] ∧
    (redoMove (undoMove exTwoClicks)).board.pos = exTwoClicks.board.pos := by
  have hm : (⟨12, 28, none⟩ : Move) ∈ legalMoves initGUI.board.pos := by decide
  have hr0 : Reachable initGUI := Relation.ReflTransGen.refl
  have h1 : Reachable (clickSquare initGUI 12) :=
    Relation.ReflTransGen.single (Step.click initGUI 12 (by decide))
  have hr : Reachable exTwoClicks :=
    Relation.ReflTransGen.tail h1 (Step.click (clickSquare initGUI 12) 28 (by decide))
  have hne : exTwoClicks.board.moveStack ≠ [] := by decide
  exact ⟨hr0, hm, (claim_C2_undo_redo_inverses.1 initGUI ⟨12, 28, none⟩ hr0 hm).1,
    hr, hne, claim_C2_undo_redo_inverses.2 exTwoClicks hr hne⟩

/-- C3: the redo stack is cleared exactly by a new commit on the click path
and by no other operation — a first click or an illegal second click leaves
it alone, undo appends to it without clearing, redo pops one entry leaving
the rest, hover and the empty-history undo leave it alone — and after
commit, undo, commit of another move, redo is a failing no-op. -/
theorem claim_C3_redo_stack_clearing :
    (∀ (g : GUIState) (m : Move), (commitMove g m).redo_stack = []) ∧
    (∀ (g : GUIState) (sq : Nat), g.selected_square = none →
      (clickSquare g sq).redo_stack = g.redo_stack) ∧
    (∀ (g : GUIState) (sel sq : Nat), g.selected_square = some sel →
      (⟨sel, sq, none⟩ : Move) ∉ legalMoves g.board.pos →
      (clickSquare g sq).redo_stack = g.redo_stack) ∧
    (∀ (g : GUIState) (m : Move) (ms : List Move), g.board.moveStack = m :: ms →
      (undoMove g).redo_stack = m :: g.redo_stack) ∧
    (∀ (g : GUIState) (m : Move) (rs : List Move), g.redo_stack = m :: rs →
      (redoMove g).redo_stack = rs) ∧
    (∀ (g : GUIState) (sq : Nat), (hoverSquare g sq).redo_stack = g.redo_stack) ∧
    (∀ g : GUIState, g.board.moveStack = [] → undoMove g = g) ∧
    (∀ (g : GUIState) (m m2 : Move), m2 ≠ m →
      redoMove (commitMove (undoMove (commitMove g m)) m2) =
        commitMove (undoMove (commitMove g m)) m2) := by
  refine ⟨fun g m => rfl, ?_, ?_, ?_, ?_, fun g sq => rfl, ?_, fun g m m2 _ => rfl⟩
  · intro g sq h
    cases hp : pieceAt g.board.pos sq with
    | none =>
      rw [clickSquare_skip g sq h (fun p hps => absurd (hps.symm.trans hp) (by simp))]
    | some p =>
      by_cases hc : p.color = g.board.pos.turn
      · rw [clickSquare_select g sq p h hp hc]
      · refine congrArg GUIState.redo_stack (clickSquare_skip g sq h ?_)
        intro p' hps
        have : p = p' := Option.some.inj (hp.symm.trans hps)
        subst this
        exact hc
  · intro g sel sq h hnot
    rw [clickSquare_illegal g sel sq h hnot]
  · intro g m ms h
    unfold undoMove
    rw [h]
  · intro g m rs h
    unfold redoMove
    rw [h]
  · intro g h
    unfold undoMove
    rw [h]

/-- Witness for C3, covering every conjunct at concrete inputs. -/
theorem claim_C3_redo_stack_clearing_witness :
    (commitMove initGUI ⟨12, 28, none⟩).redo_stack = [] ∧
    (initGUI.selected_square = none ∧
      (clickSquare initGUI 0).redo_stack = initGUI.redo_stack) ∧
    (gSel0.selected_square = some 0 ∧
      (⟨0, 1, none⟩ : Move) ∉ legalMoves gSel0.board.pos ∧
      (clickSquare gSel0 1).redo_stack = gSel0.redo_stack) ∧
    ((commitMove initGUI ⟨12, 28, none⟩).board.moveStack = [⟨12, 28, none⟩] ∧
      (undoMove (commitMove initGUI ⟨12, 28, none⟩)).redo_stack =
        ⟨12, 28, none⟩ :: (commitMove initGUI ⟨12, 28, none⟩).redo_stack) ∧
    ((undoMove (commitMove initGUI ⟨12, 28, none⟩)).redo_stack = [⟨12, 28, none⟩] ∧
      (redoMove (undoMove (commitMove initGUI ⟨12, 28, none⟩))).redo_stack = []) ∧
    (hoverSquare initGUI 5).redo_stack = initGUI.redo_stack ∧
    (initGUI.board.moveStack = [] ∧ undoMove initGUI = initGUI) ∧
    ((⟨13, 21, none⟩ : Move) ≠ (⟨12, 28, none⟩ : Move) ∧
      redoMove (commitMove (undoMove (commitMove initGUI ⟨12, 28, none⟩)) ⟨13, 21, none⟩) =
        commitMove (undoMove (commitMove initGUI ⟨12, 28, none⟩)) ⟨13, 21, none⟩) := by
  have hnot : (⟨0, 1, none⟩ : Move) ∉ legalMoves gSel0.board.pos := by decide
  refine ⟨claim_C3_redo_stack_clearing.1 initGUI ⟨12, 28, none⟩,
    ⟨rfl, claim_C3_redo_stack_clearing.2.1 initGUI 0 rfl⟩,
    ⟨rfl, hnot, claim_C3_redo_stack_clearing.2.2.1 gSel0 0 1 rfl hnot⟩,
    ⟨rfl, claim_C3_redo_stack_clearing.2.2.2.1 (commitMove initGUI ⟨12, 28, none⟩)
      ⟨12, 28, none⟩ [] rfl⟩,
    ⟨rfl, claim_C3_redo_stack_clearing.2.2.2.2.1
      (undoMove (commitMove initGUI ⟨12, 28, none⟩)) ⟨12, 28, none⟩ [] rfl⟩,
    claim_C3_redo_stack_clearing.2.2.2.2.2.1 initGUI 5,
    ⟨rfl, claim_C3_redo_stack_clearing.2.2.2.2.2.2.1 initGUI rfl⟩,
    ⟨by decide, claim_C3_redo_stack_clearing.2.2.2.2.2.2.2 initGUI ⟨12, 28, none⟩
      ⟨13, 21, none⟩ (by decide)⟩⟩

/-- C4: with a piece already selected, an attempted move that is not legal
changes neither the board (position, history, saved states), nor the redo
stack, nor the last move, nor the hovered square; only the selection and the
highlight list are reset. -/
theorem claim_C4_illegal_attempt_noop (g : GUIState) (sel sq : Nat)
    (_hr : Reachable g) (hsel : g.selected_square = some sel)
    (hnot : (⟨sel, sq, none⟩ : Move) ∉ legalMoves g.board.pos) :
    (clickSquare g sq).board = g.board ∧
    (clickSquare g sq).redo_stack = g.redo_stack ∧
    (clickSquare g sq).last_move = g.last_move ∧
    (clickSquare g sq).hovered_square = g.hovered_square ∧
    (clickSquare g sq).selected_square = none ∧
    (clickSquare g sq).legal_moves = [] := by
  rw [clickSquare_illegal g sel sq hsel hnot]
  exact ⟨rfl, rfl, rfl, rfl, rfl, rfl⟩

/-- Witness for C4 at the reachable state with e2 selected and the illegal
attempt e2-h2. -/
theorem claim_C4_illegal_attempt_noop_witness :
    Reachable (clickSquare initGUI 12) ∧
    (clickSquare initGUI 12).selected_square = some 12 ∧
    (⟨12, 11, none⟩ : Move) ∉ legalMoves (clickSquare initGUI 12).board.pos ∧
    (clickSquare (clickSquare initGUI 12) 11).board = (clickSquare initGUI 12).board := by
  have hr : Reachable (clickSquare initGUI 12) :=
    Relation.ReflTransGen.single (Step.click initGUI 12 (by decide))
  have hnot : (⟨12, 11, none⟩ : Move) ∉ legalMoves (clickSquare initGUI 12).board.pos := by
    decide
  exact ⟨hr, rfl, hnot,
    (claim_C4_illegal_attempt_noop (clickSquare initGUI 12) 12 11 hr rfl hnot).1⟩

/-- C6: an attempted move that requires a promotion choice (a pawn of the
side to move landing on the farthest rank) with the promotion field omitted
is not in the legal moves — no default is substituted — and the click path
rejects it leaving the game state unchanged. -/
theorem claim_C6_promotion_omitted_rejected (g : GUIState) (sel sq : Nat)
    (hsel : g.selected_square = some sel)
    (hp : pieceAt g.board.pos sel = some ⟨.pawn, g.board.pos.turn⟩)
    (hrank : rankOf sq = promotionRank g.board.pos.turn) :
    (⟨sel, sq, none⟩ : Move) ∉ legalMoves g.board.pos ∧
    (clickSquare g sq).board = g.board ∧
    (clickSquare g sq).redo_stack = g.redo_stack ∧
    (clickSquare g sq).last_move = g.last_move := by
  have hnot : (⟨sel, sq, none⟩ : Move) ∉ legalMoves g.board.pos := fun hmem =>
    legal_promotion g.board.pos ⟨sel, sq, none⟩ hmem hp hrank rfl
  rw [clickSquare_illegal g sel sq hsel hnot]
  exact ⟨hnot, rfl, rfl, rfl⟩

/-- Witness for C6: the a7 pawn selected in `gPromo`, clicking a8 (square
56) with no promotion choice. -/
theorem claim_C6_promotion_omitted_rejected_witness :
    gPromo.selected_square = some 48 ∧
    pieceAt gPromo.board.pos 48 = some ⟨.pawn, gPromo.board.pos.turn⟩ ∧
    rankOf 56 = promotionRank gPromo.board.pos.turn ∧
    (⟨48, 56, none⟩ : Move) ∉ legalMoves gPromo.board.pos :=
  ⟨rfl, by decide, by decide,
    (claim_C6_promotion_omitted_rejected gPromo 48 56 rfl (by decide) (by decide)).1⟩

/-- C7: undo with an empty history and redo with an empty redo stack are
recovered locally as complete no-ops. -/
theorem claim_C7_empty_undo_redo_noop :
    (∀ g : GUIState, g.board.moveStack = [] → undoMove g = g) ∧
    (∀ g : GUIState, g.redo_stack = [] → redoMove g = g) := by
  constructor
  · intro g h
    unfold undoMove
    rw [h]
  · intro g h
    unfold redoMove
    rw [h]

/-- Witness for C7 at the initial state. -/
theorem claim_C7_empty_undo_redo_noop_witness :
    initGUI.board.moveStack = [] ∧ undoMove initGUI = initGUI ∧
    initGUI.redo_stack = [] ∧ redoMove initGUI = initGUI :=
  ⟨rfl, claim_C7_empty_undo_redo_noop.1 initGUI rfl,
    rfl, claim_C7_empty_undo_redo_noop.2 initGUI rfl⟩

/-- C5: an unreachable evaluator process, a timeout, or a malformed reply
parse to the Unavailable score rather than an error; every score (including
Unavailable) is rendered by the display without failure (the bar height is
always defined and bounded, Unavailable gives the neutral half bar and no
evaluation line); and the game operations are available in every state
independently of the evaluator. -/
theorem claim_C5_evaluator_failure_safe :
    (evaluateClient none = Score.unavailable) ∧
    (∀ r : RawReply, r.type ≠ "cp" → r.type ≠ "mate" →
      evaluateClient (some r) = Score.unavailable) ∧
    (∀ s : Score, whiteHeight s ≤ 512) ∧
    (whiteHeight Score.unavailable = 256 ∧ movesTextEval Score.unavailable = none) ∧
    (∀ g : GUIState, Step g (undoMove g) ∧ Step g (redoMove g)) := by
  refine ⟨rfl, ?_, ?_, ⟨rfl, rfl⟩, fun g => ⟨Step.undo g, Step.redo g⟩⟩
  · intro r h1 h2
    show (if r.type = "cp" then Score.centipawns r.value
      else if r.type = "mate" then Score.mateIn r.value
      else Score.unavailable) = Score.unavailable
    rw [if_neg h1, if_neg h2]
  · intro s
    cases s with
    | centipawns v =>
      show ((max (min v 1000) (-1000) + 1000) * 512 / 2000).toNat ≤ 512
      omega
    | mateIn v =>
      show (if v > 0 then 512 else 0) ≤ 512
      split <;> omega
    | unavailable => decide

/-- Witness for C5 at a malformed reply. -/
theorem claim_C5_evaluator_failure_safe_witness :
    (⟨"bogus", 3⟩ : RawReply).type ≠ "cp" ∧
    (⟨"bogus", 3⟩ : RawReply).type ≠ "mate" ∧
    evaluateClient (some ⟨"bogus", 3⟩) = Score.unavailable :=
  ⟨by decide, by decide,
    claim_C5_evaluator_failure_safe.2.1 ⟨"bogus", 3⟩ (by decide) (by decide)⟩

/-- C8: the evaluation bar clamps the centipawn value to [-1000, 1000]
before computing the white portion's height as
`int((clamp(v) + 1000) / 2000 * 512)`, while the textual pane shows the raw
unclamped value. -/
theorem claim_C8_eval_bar_clamping (v : Int) :
    whiteHeight (Score.centipawns v) =
      ((max (min v 1000) (-1000) + 1000) * 512 / 2000).toNat ∧
    whiteHeight (Score.centipawns v) =
      whiteHeight (Score.centipawns (max (min v 1000) (-1000))) ∧
    movesTextEval (Score.centipawns v) = some v := by
  refine ⟨rfl, ?_, rfl⟩
  show ((max (min v 1000) (-1000) + 1000) * 512 / 2000).toNat =
    ((max (min (max (min v 1000) (-1000)) 1000) (-1000) + 1000) * 512 / 2000).toNat
  have h : max (min (max (min v 1000) (-1000)) 1000) (-1000) = max (min v 1000) (-1000) := by
    omega
  rw [h]

/-- C9: after initialization and after every click, undo and redo,
`last_move` is the final element of the chronological move history, and
`None` when the history is empty. -/
theorem claim_C9_last_move_tracks_history (g : GUIState) (h : Reachable g) :
    g.last_move = g.board.moveStack.reverse.getLast? ∧
    (g.board.moveStack = [] → g.last_move = none) := by
  have hl := (reachable_inv g h).2.2.1
  constructor
  · rw [hl, List.getLast?_reverse]
  · intro he
    rw [hl, he]
    rfl

/-- Witness for C9 at the state after committing e2e4. -/
theorem claim_C9_last_move_tracks_history_witness :
    Reachable exTwoClicks ∧
    exTwoClicks.last_move = exTwoClicks.board.moveStack.reverse.getLast? := by
  have h1 : Reachable (clickSquare initGUI 12) :=
    Relation.ReflTransGen.single (Step.click initGUI 12 (by decide))
  have hr : Reachable exTwoClicks :=
    Relation.ReflTransGen.tail h1 (Step.click (clickSquare initGUI 12) 28 (by decide))
  exact ⟨hr, (claim_C9_last_move_tracks_history exTwoClicks hr).1⟩

/-- C10: on a first click (nothing selected), a square becomes selected
exactly when it holds a piece of the side to move, in which case the
highlight list is exactly the destinations of the current legal moves from
that square; otherwise the state is unchanged and selection and highlights
remain empty. -/
theorem claim_C10_first_click_selection (g : GUIState) (sq : Nat)
    (hr : Reachable g) (hsel : g.selected_square = none) :
    (∀ p : Piece, pieceAt g.board.pos sq = some p → p.color = g.board.pos.turn →
      (clickSquare g sq).selected_square = some sq ∧
      (clickSquare g sq).legal_moves =
        ((legalMoves g.board.pos).filter (fun m => decide (m.fromSq = sq))).map
          (fun m => m.toSq)) ∧
    ((∀ p : Piece, pieceAt g.board.pos sq = some p → p.color ≠ g.board.pos.turn) →
      clickSquare g sq = g ∧ (clickSquare g sq).selected_square = none ∧
      (clickSquare g sq).legal_moves = []) := by
  constructor
  · intro p hp hc
    rw [clickSquare_select g sq p hsel hp hc]
    exact ⟨rfl, rfl⟩
  · intro hno
    have hg := clickSquare_skip g sq hsel hno
    refine ⟨hg, ?_, ?_⟩
    · rw [hg]
      exact hsel
    · rw [hg]
      exact (reachable_inv g hr).2.2.2 hsel

/-- Witness for C10: first click on e2 at the initial state. -/
theorem claim_C10_first_click_selection_witness :
    Reachable initGUI ∧ initGUI.selected_square = none ∧
    pieceAt initGUI.board.pos 12 = some ⟨.pawn, .white⟩ ∧
    (clickSquare initGUI 12).selected_square = some 12 :=
  ⟨Relation.ReflTransGen.refl, rfl, by decide,
    ((claim_C10_first_click_selection initGUI 12 Relation.ReflTransGen.refl rfl).1
      ⟨.pawn, .white⟩ (by decide) (by decide)).1⟩

end ChessSpec










